import Mathlib

/-!
Verification development for the api-sniffer log store and adaptive
persistence engine.  The implementation sources of the core (masking
engine, entry store, persistence coalescer, export engine) are not part
of the repository snapshot; the definitions below are modelled from the
specification, faithful to its words, and the theorems settle the frozen
claims against that model.
-/

namespace ApiSniffer

/-! ## Masking engine -/

mutual

/-- Modelled from the spec: structured values (record / array / scalar)
representing a header map or parsed body, as handled by the Masking
Engine of section 4.1.  Scalars are collapsed to a single string-carrying
constructor since masking treats every non-object, non-array value as an
opaque leaf. -/
inductive JValue where
  | prim (s : String)
  | arr (elems : JArr)
  | obj (fields : JFields)

inductive JArr where
  | nil
  | cons (v : JValue) (rest : JArr)

inductive JFields where
  | nil
  | cons (k : String) (v : JValue) (rest : JFields)

end

/-- ASCII lower-casing of a character, as JavaScript toLowerCase does on
the ASCII field names the policy deals with. -/
def lowerChar (c : Char) : Char :=
  if 65 ≤ c.toNat ∧ c.toNat ≤ 90 then Char.ofNat (c.toNat + 32) else c

/-- Lower-case a string character by character. -/
def lowerStr (s : String) : String :=
  String.mk (s.data.map lowerChar)

/-- Modelled from the spec: case-insensitive exact match of a key against
the masking policy (a set of field names). -/
def isMaskedKey (policy : List String) (k : String) : Bool :=
  policy.any (fun p => lowerStr p == lowerStr k)

/-- Modelled from the spec: the fixed mask token substituted for every
value reachable under a policy-matching key. -/
def maskToken : JValue := .prim "***MASKED***"

mutual

/-- Modelled from the spec (section 4.1): mask(value, policy) returns a
copy in which every value under a key matching the policy
(case-insensitive) is replaced by the mask token; it recurses into
object values and array elements, never alters key names, and returns
non-object, non-array leaves unchanged. -/
def maskValue (policy : List String) : JValue → JValue
  | .prim s => .prim s
  | .arr xs => .arr (maskArr policy xs)
  | .obj fs => .obj (maskFields policy fs)

def maskArr (policy : List String) : JArr → JArr
  | .nil => .nil
  | .cons v rest => .cons (maskValue policy v) (maskArr policy rest)

def maskFields (policy : List String) : JFields → JFields
  | .nil => .nil
  | .cons k v rest =>
    if isMaskedKey policy k then .cons k maskToken (maskFields policy rest)
    else .cons k (maskValue policy v) (maskFields policy rest)

end

/-- The keys of a record, in order. -/
def keysOf : JFields → List String
  | .nil => []
  | .cons k _ rest => k :: keysOf rest

/-- The i-th key/value field of a record. -/
def nthField : JFields → Nat → Option (String × JValue)
  | .nil, _ => none
  | .cons k v _, 0 => some (k, v)
  | .cons _ _ rest, i + 1 => nthField rest i

/-- The i-th element of an array value. -/
def nthElem : JArr → Nat → Option JValue
  | .nil, _ => none
  | .cons v _, 0 => some v
  | .cons _ rest, i + 1 => nthElem rest i

mutual

/-- A value is clean for a policy when no key anywhere in it matches the
policy. -/
def cleanValue (policy : List String) : JValue → Bool
  | .prim _ => true
  | .arr xs => cleanArr policy xs
  | .obj fs => cleanFields policy fs

def cleanArr (policy : List String) : JArr → Bool
  | .nil => true
  | .cons v rest => cleanValue policy v && cleanArr policy rest

def cleanFields (policy : List String) : JFields → Bool
  | .nil => true
  | .cons k v rest => !isMaskedKey policy k && cleanValue policy v && cleanFields policy rest

end

/-- The default masking policy, taken verbatim from the Default Masked
Fields list of the repository README (src/unnamed/part_002). -/
def defaultMaskedFields : List String :=
  ["password", "authorization", "token", "secret", "key", "apikey",
   "api-key", "cookie", "session", "x-api-key", "x-auth-token"]

/-! ## Entry store (ring buffer) -/

/-- Modelled from the spec (section 4.2): the bounded entry store.  Each
buffered entry is its sequence number paired with its (already masked)
payload; `nextSeq` is the monotonic sequence counter and `maxLogs` the
configured capacity (an integer, so that nonpositive configurations are
representable as section 7 requires). -/
structure LogStore where
  logs : List (Nat × String)
  nextSeq : Nat
  maxLogs : Int

/-- Modelled from the spec: evict entries from the front of the buffer
while its length exceeds `maxLogs`. -/
def evict (m : Int) : List (Nat × String) → List (Nat × String)
  | [] => []
  | e :: rest =>
    if ((e :: rest).length : Int) > m then evict m rest else e :: rest

/-- Modelled from the spec (section 4.2): addLog assigns the next
sequence number, appends the entry to the buffer, evicts from the front
while the length exceeds capacity, and returns the assigned sequence. -/
def addLog (st : LogStore) (raw : String) : LogStore × Nat :=
  ({ logs := evict st.maxLogs (st.logs ++ [(st.nextSeq, raw)]),
     nextSeq := st.nextSeq + 1,
     maxLogs := st.maxLogs }, st.nextSeq)

/-- Run a sequence of insertions through the store. -/
def runInserts (st : LogStore) : List String → LogStore
  | [] => st
  | r :: rs => runInserts (addLog st r).1 rs

/-- Modelled from the spec: operations on one store instance the sequence
counter must survive — insertions and clear(). -/
inductive StoreOp where
  | add (raw : String)
  | clr

/-- Modelled from the spec (section 4.2): clear() empties the buffer and
leaves the sequence counter untouched. -/
def applyOp (st : LogStore) : StoreOp → LogStore
  | .add raw => (addLog st raw).1
  | .clr => { st with logs := [] }

/-- Run a sequence of store operations. -/
def runOps (st : LogStore) : List StoreOp → LogStore
  | [] => st
  | op :: ops => runOps (applyOp st op) ops

/-- The sequence numbers returned by the addLog calls of a run, in call
order. -/
def assignedSeqs (st : LogStore) : List StoreOp → List Nat
  | [] => []
  | .add raw :: ops => (addLog st raw).2 :: assignedSeqs (addLog st raw).1 ops
  | .clr :: ops => assignedSeqs (applyOp st .clr) ops

/-- The number of insertions in an operation list. -/
def countAdds : List StoreOp → Nat
  | [] => 0
  | .add _ :: ops => countAdds ops + 1
  | .clr :: ops => countAdds ops

/-- Invariant of the entry store: the buffer respects the capacity bound,
is strictly ordered by sequence number, and every buffered sequence
number is below the counter. -/
def StoreInv (st : LogStore) : Prop :=
  st.logs.length ≤ st.maxLogs.toNat
  ∧ List.Pairwise (fun a b : Nat × String => a.1 < b.1) st.logs
  ∧ ∀ e ∈ st.logs, e.1 < st.nextSeq

/-! ## Persistence coalescer -/

/-- Modelled from the spec (section 4.3): the four scheduling modes of
the write coalescer. -/
inductive Mode where
  | idle
  | debouncing
  | batching
  | flushing
  deriving DecidableEq

/-- Which of the three triggers started the most recent flush, or the
final flush of destroy(). -/
inductive Trigger where
  | batch
  | debounce
  | ceiling
  | final
  deriving DecidableEq

/-- The tunable that forces an immediate flush by entry count.  The two
duration tunables (writeDebounceMs, writeInterval) are abstracted into
timer-fire events of the step relation. -/
structure CConfig where
  writeBatchSize : Nat

/-- Modelled from the spec (section 4.3): the scheduling state of the
persistence coalescer.  `buffer` is the wrapped in-memory entry list
(entries named by their ids), `persisted` the destination file content,
`pendingFlush` and `pendingDirty` the snapshot and dirty count taken
when the in-flight flush started. -/
structure Coalescer where
  mode : Mode
  dirty : Nat
  debounceArmed : Bool
  ceilingArmed : Bool
  buffer : List Nat
  persisted : List Nat
  pendingFlush : List Nat
  pendingDirty : Nat
  flushesInFlight : Nat
  flushStarts : Nat
  flushCount : Nat
  lastTrigger : Option Trigger
  destroyed : Bool
  deriving DecidableEq

/-- The external events the coalescer reacts to: an insertion, the two
timer expirations, completion of the in-flight write, and shutdown. -/
inductive CEvent where
  | addLog (id : Nat)
  | debounceFire
  | ceilingFire
  | flushComplete
  | destroy
  deriving DecidableEq

/-- The initial coalescer state: idle, nothing buffered or persisted. -/
def initC : Coalescer :=
  { mode := .idle, dirty := 0, debounceArmed := false, ceilingArmed := false,
    buffer := [], persisted := [], pendingFlush := [], pendingDirty := 0,
    flushesInFlight := 0, flushStarts := 0, flushCount := 0,
    lastTrigger := none, destroyed := false }

/-- Modelled from the spec: starting a flush snapshots the whole buffer
and the dirty count, cancels both timers, and records the trigger. -/
def startFlush (t : Trigger) (s : Coalescer) : Coalescer :=
  { s with mode := .flushing, pendingFlush := s.buffer, pendingDirty := s.dirty,
           debounceArmed := false, ceilingArmed := false,
           flushesInFlight := s.flushesInFlight + 1,
           flushStarts := s.flushStarts + 1,
           lastTrigger := some t }

/-- Modelled from the spec (section 4.3, transition rules 1-4, flush
operation, and shutdown): one step of the coalescer.  An addLog
increments the dirty counter; during an in-flight flush it only re-arms
the timers (rule 4); otherwise reaching writeBatchSize fires an
immediate batch flush preempting both timers (rule 2), and any other
arrival re-arms the debounce timer and ensures the ceiling timer.
Either timer firing triggers a flush (rule 3).  Flush completion
persists the snapshot, subtracts the flushed dirty count, and resumes
scheduling for residual entries.  destroy() cancels all timers and
performs one final synchronous flush of the whole buffer regardless of
the dirty counter. -/
def step (cfg : CConfig) (s : Coalescer) : CEvent → Coalescer
  | .addLog id =>
    if s.destroyed then s else
    let s1 := { s with buffer := s.buffer ++ [id], dirty := s.dirty + 1 }
    if s.mode = .flushing then
      { s1 with debounceArmed := true, ceilingArmed := true }
    else if cfg.writeBatchSize ≤ s1.dirty then
      startFlush .batch s1
    else
      { s1 with mode := .debouncing, debounceArmed := true, ceilingArmed := true }
  | .debounceFire =>
    if s.destroyed then s else
    if s.debounceArmed = true ∧ s.mode ≠ .flushing ∧ 0 < s.dirty then
      startFlush .debounce s
    else s
  | .ceilingFire =>
    if s.destroyed then s else
    if s.ceilingArmed = true ∧ s.mode ≠ .flushing ∧ 0 < s.dirty then
      startFlush .ceiling s
    else s
  | .flushComplete =>
    if s.destroyed then s else
    if s.mode = .flushing then
      let residual := s.dirty - s.pendingDirty
      let s1 := { s with persisted := s.pendingFlush,
                         flushCount := s.flushCount + 1,
                         flushesInFlight := s.flushesInFlight - 1,
                         dirty := residual,
                         pendingFlush := [], pendingDirty := 0 }
      if 0 < residual then
        { s1 with mode := .debouncing, debounceArmed := true, ceilingArmed := true }
      else
        { s1 with mode := .idle, debounceArmed := false, ceilingArmed := false }
    else s
  | .destroy =>
    { s with debounceArmed := false, ceilingArmed := false,
             persisted := s.buffer, flushCount := s.flushCount + 1,
             dirty := 0, mode := .idle, flushesInFlight := 0,
             pendingFlush := [], pendingDirty := 0,
             lastTrigger := some .final, destroyed := true }

/-- Run the coalescer over a list of events. -/
def runC (cfg : CConfig) (s : Coalescer) : List CEvent → Coalescer
  | [] => s
  | e :: evs => runC cfg (step cfg s e) evs

/-- The entry ids accepted by the addLog events of an event list, in
order. -/
def addedIds : List CEvent → List Nat
  | [] => []
  | .addLog id :: evs => id :: addedIds evs
  | _ :: evs => addedIds evs

/-- Single-flight invariant of the coalescer: never more than one flush
in flight, the flushing mode is exactly the one-in-flight state, and a
destroyed coalescer is quiescent. -/
def CInv (s : Coalescer) : Prop :=
  s.flushesInFlight ≤ 1
  ∧ (s.mode = Mode.flushing ↔ s.flushesInFlight = 1)
  ∧ (s.destroyed = true → s.mode = Mode.idle)

/-! ## Startup load -/

/-- The outcome of loading the persisted file at startup: the initial
buffer and whether a warning was logged. -/
structure LoadResult where
  buffer : List Nat
  warned : Bool
  deriving DecidableEq

/-- Modelled from the spec (section 4.3, Startup): loading the
destination file.  A missing file yields an empty buffer and no error;
an unparseable file logs a warning and yields an empty buffer; a
parseable file yields its entries.  The parser is abstract. -/
def loadPersisted (parse : String → Option (List Nat)) :
    Option String → LoadResult
  | none => { buffer := [], warned := false }
  | some raw =>
    match parse raw with
    | none => { buffer := [], warned := true }
    | some entries => { buffer := entries, warned := false }

/-- Modelled from the spec: coalescer startup; when refreshOnStartup is
set the destination file is loaded into the buffer, otherwise the
coalescer starts empty.  Startup always produces a live coalescer. -/
def startupC (parse : String → Option (List Nat)) (refreshOnStartup : Bool)
    (file : Option String) : Coalescer :=
  if refreshOnStartup then
    { initC with buffer := (loadPersisted parse file).buffer }
  else initC

/-! ## Export engine -/

/-- Modelled from the spec (section 4.4): the explicit error returned
for an unsupported export format. -/
inductive ExportError where
  | UnsupportedFormat
  deriving DecidableEq

/-- A flattened entry as the export engine sees it: the fixed CSV
columns of section 4.4. -/
structure ExpEntry where
  sequence : Nat
  timestamp : String
  method : String
  path : String
  statusCode : Nat
  responseTime : Nat
  deriving DecidableEq

/-- One CSV row of an entry, fixed column order. -/
def csvLine (e : ExpEntry) : String :=
  toString e.sequence ++ "," ++ e.timestamp ++ "," ++ e.method ++ "," ++
    e.path ++ "," ++ toString e.statusCode ++ "," ++ toString e.responseTime

/-- JSON-style serialization of one entry as an array of its fields, in
stable order. -/
def jsonLine (e : ExpEntry) : String :=
  "[" ++ toString e.sequence ++ "," ++ e.timestamp ++ "," ++ e.method ++ "," ++
    e.path ++ "," ++ toString e.statusCode ++ "," ++ toString e.responseTime ++ "]"

/-- Serialize a list of lines joined by newlines. -/
def joinLines : List String → String
  | [] => ""
  | [l] => l
  | l :: rest => l ++ "\n" ++ joinLines rest

/-- Modelled from the spec (section 4.4): exportLogs serializes the
filtered entries as JSON or CSV; every other format value fails with an
UnsupportedFormat error rather than silently defaulting. -/
def exportLogs (format : String) (logs : List ExpEntry) :
    Except ExportError String :=
  if format = "json" then
    .ok ("[" ++ joinLines (logs.map jsonLine) ++ "]")
  else if format = "csv" then
    .ok (joinLines ("sequence,timestamp,method,path,statusCode,responseTime" ::
          logs.map csvLine))
  else
    .error .UnsupportedFormat

/-! ## Masking engine theorems -/

mutual

/-- Masking a value none of whose keys match the policy returns it
unchanged. -/
theorem maskValue_of_clean (policy : List String) :
    ∀ v : JValue, cleanValue policy v = true → maskValue policy v = v
  | .prim _, _ => rfl
  | .arr xs, h => by
      rw [maskValue, maskArr_of_clean policy xs h]
  | .obj fs, h => by
      rw [maskValue, maskFields_of_clean policy fs h]

/-- Masking an array none of whose keys match the policy returns it
unchanged. -/
theorem maskArr_of_clean (policy : List String) :
    ∀ xs : JArr, cleanArr policy xs = true → maskArr policy xs = xs
  | .nil, _ => rfl
  | .cons v rest, h => by
      rw [cleanArr] at h
      simp only [Bool.and_eq_true] at h
      obtain ⟨h1, h2⟩ := h
      rw [maskArr, maskValue_of_clean policy v h1, maskArr_of_clean policy rest h2]

/-- Masking a record none of whose keys match the policy returns it
unchanged. -/
theorem maskFields_of_clean (policy : List String) :
    ∀ fs : JFields, cleanFields policy fs = true → maskFields policy fs = fs
  | .nil, _ => rfl
  | .cons k v rest, h => by
      rw [cleanFields] at h
      simp only [Bool.and_eq_true, Bool.not_eq_true'] at h
      obtain ⟨⟨hk, hv⟩, hr⟩ := h
      rw [maskFields, if_neg (by simp [hk]),
        maskValue_of_clean policy v hv, maskFields_of_clean policy rest hr]

end

/-- Masking preserves the key list of a record. -/
theorem keysOf_maskFields (policy : List String) :
    ∀ fs : JFields, keysOf (maskFields policy fs) = keysOf fs
  | .nil => rfl
  | .cons k v rest => by
      by_cases hc : isMaskedKey policy k = true <;>
        simp [maskFields, hc, keysOf, keysOf_maskFields policy rest]

/-- Field-by-field behaviour of masking on a record: key preserved in
place, value replaced by the token exactly when the key matches the
policy, recursively masked otherwise. -/
theorem nthField_maskFields (policy : List String) :
    ∀ (fs : JFields) (i : Nat) (k : String) (w : JValue),
      nthField fs i = some (k, w) →
      nthField (maskFields policy fs) i =
        some (k, if isMaskedKey policy k then maskToken else maskValue policy w)
  | .cons k0 v0 rest, 0, k, w, h => by
      rw [nthField] at h
      simp only [Option.some.injEq, Prod.mk.injEq] at h
      obtain ⟨hk, hw⟩ := h
      subst hk
      subst hw
      by_cases hc : isMaskedKey policy k0 = true
      · simp [maskFields, hc, nthField]
      · simp [maskFields, hc, nthField]
  | .cons k0 v0 rest, i + 1, k, w, h => by
      rw [nthField] at h
      have ih := nthField_maskFields policy rest i k w h
      by_cases hc : isMaskedKey policy k0 = true <;>
        simpa [maskFields, hc, nthField] using ih

/-- Element-by-element behaviour of masking on an array value. -/
theorem nthElem_maskArr (policy : List String) :
    ∀ (xs : JArr) (i : Nat),
      nthElem (maskArr policy xs) i = (nthElem xs i).map (maskValue policy)
  | .nil, _ => rfl
  | .cons _ _, 0 => rfl
  | .cons _ rest, i + 1 => nthElem_maskArr policy rest i

/-- C2: for every input value and policy, masking returns a value in
which every field whose key matches the policy (case-insensitive, at any
depth, including inside array elements via the recursive clauses) is
replaced by the fixed mask token, while key names, key order, array
arity and all values not reachable under a matching key are preserved
exactly; a scalar leaf is returned unchanged.  The model is a pure
function, so the input value itself is never mutated. -/
theorem c2_mask_deep_copy (policy : List String) (fs : JFields) (s : String)
    (v : JValue) :
    maskValue policy (.prim s) = .prim s
  ∧ keysOf (maskFields policy fs) = keysOf fs
  ∧ (∀ i k w, nthField fs i = some (k, w) →
      nthField (maskFields policy fs) i =
        some (k, if isMaskedKey policy k then maskToken else maskValue policy w))
  ∧ (∀ (xs : JArr) (i : Nat),
      nthElem (maskArr policy xs) i = (nthElem xs i).map (maskValue policy))
  ∧ (cleanValue policy v = true → maskValue policy v = v) :=
  ⟨rfl, keysOf_maskFields policy fs,
   fun i k w h => nthField_maskFields policy fs i k w h,
   fun xs i => nthElem_maskArr policy xs i,
   fun h => maskValue_of_clean policy v h⟩

/-- Witness for C2: under policy [password], the case-variant key
Password is redacted, its sibling field user is preserved unchanged, and
a scalar leaf passes through. -/
theorem c2_mask_deep_copy_witness :
    nthField (maskFields ["password"]
        (.cons "Password" (.prim "hunter2") (.cons "user" (.prim "bob") .nil))) 0 =
      some ("Password", maskToken)
  ∧ nthField (maskFields ["password"]
        (.cons "Password" (.prim "hunter2") (.cons "user" (.prim "bob") .nil))) 1 =
      some ("user", JValue.prim "bob")
  ∧ maskValue ["password"] (.prim "x") = .prim "x" := by
  have h := c2_mask_deep_copy ["password"]
    (.cons "Password" (.prim "hunter2") (.cons "user" (.prim "bob") .nil))
    "x" (.prim "x")
  refine ⟨?_, ?_, h.2.2.2.2 rfl⟩
  · have h0 := h.2.2.1 0 "Password" (.prim "hunter2") rfl
    rw [show isMaskedKey ["password"] "Password" = true from rfl] at h0
    simpa using h0
  · have h1 := h.2.2.1 1 "user" (.prim "bob") rfl
    rw [show isMaskedKey ["password"] "user" = false from rfl] at h1
    simpa using h1

/-- C10: the built-in default masking policy is exactly the eleven field
names of the README list — including api-key, x-api-key and
x-auth-token — so a header variant such as X-API-Key is redacted by the
masking engine with no caller-supplied additions. -/
theorem c10_default_masked_fields :
    defaultMaskedFields =
      ["password", "authorization", "token", "secret", "key", "apikey",
       "api-key", "cookie", "session", "x-api-key", "x-auth-token"]
  ∧ defaultMaskedFields.length = 11
  ∧ "api-key" ∈ defaultMaskedFields
  ∧ "x-api-key" ∈ defaultMaskedFields
  ∧ "x-auth-token" ∈ defaultMaskedFields
  ∧ maskValue defaultMaskedFields
      (.obj (.cons "X-API-Key" (.prim "supersecret") .nil)) =
      .obj (.cons "X-API-Key" maskToken .nil) := by
  refine ⟨rfl, rfl, ?_, ?_, ?_, rfl⟩ <;> simp [defaultMaskedFields]

/-! ## Entry store theorems -/

/-- Eviction leaves exactly min(length, capacity) entries. -/
theorem evict_length (m : Int) (l : List (Nat × String)) :
    (evict m l).length = min l.length m.toNat := by
  induction l with
  | nil => simp [evict]
  | cons e rest ih =>
    rw [evict]
    split
    · rename_i hgt
      rw [ih]
      simp only [List.length_cons] at hgt ⊢
      omega
    · rename_i hle
      simp only [List.length_cons] at hle ⊢
      omega

/-- Eviction removes entries only from the front of the buffer. -/
theorem evict_suffix (m : Int) (l : List (Nat × String)) :
    (evict m l) <:+ l := by
  induction l with
  | nil => simp [evict]
  | cons e rest ih =>
    rw [evict]
    split
    · exact ih.trans (List.suffix_cons e rest)
    · exact List.suffix_refl _

/-- With a nonpositive capacity, eviction empties the buffer. -/
theorem evict_of_nonpos (m : Int) (hm : m ≤ 0) (l : List (Nat × String)) :
    evict m l = [] := by
  induction l with
  | nil => rfl
  | cons e rest ih =>
    rw [evict]
    split
    · exact ih
    · rename_i hle
      simp only [List.length_cons] at hle
      omega

/-- The appended buffer addLog evicts from is strictly ordered by
sequence number whenever the store invariant holds. -/
theorem pairwise_append_entry (st : LogStore) (raw : String) (h : StoreInv st) :
    List.Pairwise (fun a b : Nat × String => a.1 < b.1)
      (st.logs ++ [(st.nextSeq, raw)]) := by
  rw [List.pairwise_append]
  exact ⟨h.2.1, List.pairwise_singleton _ _,
    fun a ha b hb => by
      rw [List.mem_singleton] at hb
      subst hb
      exact h.2.2 a ha⟩

/-- One insertion preserves the store invariant. -/
theorem addLog_inv (st : LogStore) (raw : String) (h : StoreInv st) :
    StoreInv (addLog st raw).1 := by
  refine ⟨?_, ?_, ?_⟩
  · show (evict st.maxLogs (st.logs ++ [(st.nextSeq, raw)])).length ≤ st.maxLogs.toNat
    rw [evict_length]
    omega
  · exact List.Pairwise.sublist (evict_suffix _ _).sublist (pairwise_append_entry st raw h)
  · intro e he
    have : e ∈ st.logs ++ [(st.nextSeq, raw)] := (evict_suffix _ _).subset he
    rw [List.mem_append, List.mem_singleton] at this
    rcases this with hmem | rfl
    · exact Nat.lt_succ_of_lt (h.2.2 e hmem)
    · exact Nat.lt_succ_self _

/-- Any run of insertions preserves the store invariant and the
configured capacity. -/
theorem runInserts_inv (raws : List String) (st : LogStore) (h : StoreInv st) :
    StoreInv (runInserts st raws) ∧ (runInserts st raws).maxLogs = st.maxLogs := by
  induction raws generalizing st with
  | nil => exact ⟨h, rfl⟩
  | cons r rs ih =>
    obtain ⟨h1, h2⟩ := ih (addLog st r).1 (addLog_inv st r h)
    exact ⟨h1, h2.trans rfl⟩

/-- C1: over every sequence of addLog insertions the buffer length never
exceeds the configured maxLogs capacity, and whenever an insertion
evicts, it removes entries only from the front of the buffer — entries
whose sequence numbers are all strictly smaller than every retained
entry's, i.e. strict FIFO by sequence number, independent of any field
value. -/
theorem c1_capacity_fifo (st : LogStore) (raws : List String) (h : StoreInv st) :
    StoreInv (runInserts st raws)
  ∧ (runInserts st raws).logs.length ≤ st.maxLogs.toNat
  ∧ (∀ raw, ((addLog st raw).1.logs) <:+ (st.logs ++ [(st.nextSeq, raw)]))
  ∧ (∀ raw dropped,
      dropped ++ (addLog st raw).1.logs = st.logs ++ [(st.nextSeq, raw)] →
      ∀ a ∈ dropped, ∀ b ∈ (addLog st raw).1.logs, a.1 < b.1) := by
  obtain ⟨h1, h2⟩ := runInserts_inv raws st h
  refine ⟨h1, by rw [← h2]; exact h1.1, fun raw => evict_suffix _ _, ?_⟩
  intro raw dropped hsplit a ha b hb
  have hp := pairwise_append_entry st raw h
  rw [← hsplit, List.pairwise_append] at hp
  exact hp.2.2 a ha b hb

/-- Witness for C1 at a concrete store of capacity 2 receiving three
insertions. -/
theorem c1_capacity_fifo_witness :
    StoreInv (runInserts ⟨[], 0, 2⟩ ["a", "b", "c"])
  ∧ (runInserts ⟨[], 0, 2⟩ ["a", "b", "c"]).logs.length ≤ (2 : Int).toNat
  ∧ ((addLog ⟨[], 0, 2⟩ "a").1.logs) <:+ ([] ++ [(0, "a")]) := by
  have h := c1_capacity_fifo ⟨[], 0, 2⟩ ["a", "b", "c"]
    ⟨by simp, List.Pairwise.nil, by simp⟩
  exact ⟨h.1, h.2.1, h.2.2.1 "a"⟩

/-- Every sequence number an addLog call of a run hands out is at least
the store's counter at the start of the run. -/
theorem assignedSeqs_lb (ops : List StoreOp) (st : LogStore) :
    ∀ q ∈ assignedSeqs st ops, st.nextSeq ≤ q := by
  induction ops generalizing st with
  | nil => simp [assignedSeqs]
  | cons op ops ih =>
    cases op with
    | add raw =>
      intro q hq
      rw [assignedSeqs, List.mem_cons] at hq
      rcases hq with rfl | hq
      · exact Nat.le_refl _
      · exact Nat.le_of_succ_le (ih (addLog st raw).1 q hq)
    | clr =>
      intro q hq
      rw [assignedSeqs] at hq
      exact ih (applyOp st StoreOp.clr) q hq

/-- Every sequence number assigned during a run stays below the final
value of the counter. -/
theorem assignedSeqs_ub (ops : List StoreOp) (st : LogStore) :
    ∀ q ∈ assignedSeqs st ops, q < st.nextSeq + countAdds ops := by
  induction ops generalizing st with
  | nil => simp [assignedSeqs]
  | cons op ops ih =>
    cases op with
    | add raw =>
      intro q hq
      rw [assignedSeqs, List.mem_cons] at hq
      rw [countAdds]
      rcases hq with rfl | hq
      · show st.nextSeq < st.nextSeq + (countAdds ops + 1)
        omega
      · have hb := ih (addLog st raw).1 q hq
        have h1 : (addLog st raw).1.nextSeq = st.nextSeq + 1 := rfl
        rw [h1] at hb
        omega
    | clr =>
      intro q hq
      rw [assignedSeqs] at hq
      rw [countAdds]
      exact ih (applyOp st StoreOp.clr) q hq

/-- The sequence numbers assigned over a run are strictly increasing in
call order. -/
theorem assignedSeqs_pairwise (ops : List StoreOp) (st : LogStore) :
    List.Pairwise (· < ·) (assignedSeqs st ops) := by
  induction ops generalizing st with
  | nil => exact List.Pairwise.nil
  | cons op ops ih =>
    cases op with
    | add raw =>
      rw [assignedSeqs]
      refine List.Pairwise.cons ?_ (ih (addLog st raw).1)
      intro q hq
      exact Nat.lt_of_succ_le (assignedSeqs_lb ops (addLog st raw).1 q hq)
    | clr =>
      rw [assignedSeqs]
      exact ih _

/-- The sequence counter advances by exactly the number of insertions of
a run; no operation ever rewinds it. -/
theorem runOps_nextSeq (ops : List StoreOp) (st : LogStore) :
    (runOps st ops).nextSeq = st.nextSeq + countAdds ops := by
  induction ops generalizing st with
  | nil => rfl
  | cons op ops ih =>
    cases op with
    | add raw =>
      rw [runOps, countAdds, applyOp, ih]
      show st.nextSeq + 1 + countAdds ops = st.nextSeq + (countAdds ops + 1)
      omega
    | clr =>
      rw [runOps, countAdds, ih]
      rfl

/-- C3: across every sequence of operations (insertions and clears) on
one store instance the sequence numbers assigned by addLog are strictly
increasing, hence never assigned twice; clear() empties the buffer
without resetting the sequence counter, so the insertion immediately
after a clear is assigned a sequence number strictly larger than every
sequence assigned before it. -/
theorem c3_sequence_monotonic (st : LogStore) (ops : List StoreOp) :
    List.Pairwise (· < ·) (assignedSeqs st ops)
  ∧ (runOps st ops).nextSeq = st.nextSeq + countAdds ops
  ∧ (applyOp (runOps st ops) .clr).logs = []
  ∧ (applyOp (runOps st ops) .clr).nextSeq = (runOps st ops).nextSeq
  ∧ (∀ raw, (addLog (applyOp (runOps st ops) .clr) raw).2 =
      st.nextSeq + countAdds ops)
  ∧ (∀ raw q, q ∈ assignedSeqs st ops →
      q < (addLog (applyOp (runOps st ops) .clr) raw).2) := by
  refine ⟨assignedSeqs_pairwise ops st, runOps_nextSeq ops st, rfl, rfl, ?_, ?_⟩
  · intro raw
    show (runOps st ops).nextSeq = st.nextSeq + countAdds ops
    exact runOps_nextSeq ops st
  · intro raw q hq
    show q < (runOps st ops).nextSeq
    rw [runOps_nextSeq ops st]
    exact assignedSeqs_ub ops st q hq

/-- Witness for C3 at a concrete run: insert, clear, insert — the
assigned sequences stay strictly increasing and the insertion after the
final clear gets a sequence above every earlier one. -/
theorem c3_sequence_monotonic_witness :
    List.Pairwise (· < ·)
      (assignedSeqs ⟨[], 0, 5⟩ [.add "a", .clr, .add "b"])
  ∧ (0 : Nat) <
      (addLog (applyOp (runOps ⟨[], 0, 5⟩ [.add "a", .clr, .add "b"]) .clr) "c").2 := by
  have h := c3_sequence_monotonic ⟨[], 0, 5⟩ [.add "a", .clr, .add "b"]
  exact ⟨h.1, h.2.2.2.2.2 "c" 0 (by decide)⟩

/-- C9: with a nonpositive configured capacity the store neither fails
nor stores: addLog still returns the assigned sequence number and
advances the counter, but the inserted entry is immediately evicted, so
the buffer stays empty. -/
theorem c9_nonpositive_capacity (st : LogStore) (raw : String)
    (h : st.maxLogs ≤ 0) :
    (addLog st raw).1.logs = []
  ∧ (addLog st raw).2 = st.nextSeq
  ∧ (addLog st raw).1.nextSeq = st.nextSeq + 1 := by
  refine ⟨?_, rfl, rfl⟩
  show evict st.maxLogs (st.logs ++ [(st.nextSeq, raw)]) = []
  exact evict_of_nonpos st.maxLogs h _

/-- Witness for C9 at a concrete store configured with capacity 0. -/
theorem c9_nonpositive_capacity_witness :
    (addLog ⟨[], 5, 0⟩ "x").1.logs = []
  ∧ (addLog ⟨[], 5, 0⟩ "x").2 = 5
  ∧ (addLog ⟨[], 5, 0⟩ "x").1.nextSeq = 6 :=
  c9_nonpositive_capacity ⟨[], 5, 0⟩ "x" (by decide)

/-! ## Persistence coalescer theorems -/

/-- The initial coalescer state satisfies the single-flight invariant. -/
theorem initC_inv : CInv initC :=
  ⟨by simp [initC], by simp [initC], by simp [initC]⟩

/-- Every coalescer step preserves the single-flight invariant. -/
theorem step_inv (cfg : CConfig) (s : Coalescer) (e : CEvent) (h : CInv s) :
    CInv (step cfg s e) := by
  obtain ⟨h1, h2, h3⟩ := h
  unfold CInv
  cases e <;>
    simp only [step, startFlush] <;>
    (try split_ifs) <;>
    simp_all <;>
    omega

/-- Any run of the coalescer from an invariant state stays invariant. -/
theorem runC_inv (cfg : CConfig) (evs : List CEvent) (s : Coalescer)
    (h : CInv s) : CInv (runC cfg s evs) := by
  induction evs generalizing s with
  | nil => exact h
  | cons e evs ih => exact ih _ (step_inv cfg s e h)

/-- C4: in every reachable coalescer state at most one flush is in
flight; while a flush is in flight an arriving addLog increments the
dirty counter and re-arms both timers but starts no second flush (flush
starts and flushes in flight unchanged, mode stays flushing), and only
the completion of the in-flight flush resumes scheduling for residual
dirty entries (mode returns to debouncing with timers armed). -/
theorem c4_single_flight (cfg : CConfig) (evs : List CEvent) (s : Coalescer)
    (hs : s = runC cfg initC evs) :
    s.flushesInFlight ≤ 1
  ∧ (∀ id, s.mode = Mode.flushing →
        (step cfg s (.addLog id)).flushesInFlight = s.flushesInFlight
      ∧ (step cfg s (.addLog id)).flushStarts = s.flushStarts
      ∧ (step cfg s (.addLog id)).dirty = s.dirty + 1
      ∧ (step cfg s (.addLog id)).debounceArmed = true
      ∧ (step cfg s (.addLog id)).ceilingArmed = true
      ∧ (step cfg s (.addLog id)).mode = Mode.flushing)
  ∧ (s.mode = Mode.flushing → 0 < s.dirty - s.pendingDirty →
        (step cfg s .flushComplete).mode = Mode.debouncing
      ∧ (step cfg s .flushComplete).flushesInFlight = 0
      ∧ (step cfg s .flushComplete).debounceArmed = true
      ∧ (step cfg s .flushComplete).ceilingArmed = true) := by
  have hinv : CInv s := hs ▸ runC_inv cfg evs initC initC_inv
  obtain ⟨h1, h2, h3⟩ := hinv
  refine ⟨h1, ?_, ?_⟩
  · intro id hm
    have hd : s.destroyed = false := by
      cases hdd : s.destroyed
      · rfl
      · rw [h3 hdd] at hm
        simp at hm
    simp [step, hd, hm]
  · intro hm hres
    have hd : s.destroyed = false := by
      cases hdd : s.destroyed
      · rfl
      · rw [h3 hdd] at hm
        simp at hm
    have hf : s.flushesInFlight = 1 := h2.mp hm
    simp [step, hd, hm, hres, hf]

/-- Witness for C4 at a concrete run: batch size 2, two insertions start
a flush, a third arrives during the flush. -/
theorem c4_single_flight_witness :
    (step ⟨2⟩ (runC ⟨2⟩ initC [.addLog 0, .addLog 1, .addLog 2])
        (.addLog 7)).dirty =
      (runC ⟨2⟩ initC [.addLog 0, .addLog 1, .addLog 2]).dirty + 1
  ∧ (step ⟨2⟩ (runC ⟨2⟩ initC [.addLog 0, .addLog 1, .addLog 2])
        (.addLog 7)).mode = Mode.flushing
  ∧ (step ⟨2⟩ (runC ⟨2⟩ initC [.addLog 0, .addLog 1, .addLog 2])
        .flushComplete).mode = Mode.debouncing := by
  have h := c4_single_flight ⟨2⟩ [.addLog 0, .addLog 1, .addLog 2]
    (runC ⟨2⟩ initC [.addLog 0, .addLog 1, .addLog 2]) rfl
  have ha := h.2.1 7 (by decide)
  have hb := h.2.2 (by decide) (by decide)
  exact ⟨ha.2.2.1, ha.2.2.2.2.2, hb.1⟩

/-- C6: an addLog that brings the dirty counter up to writeBatchSize
fires a flush immediately within that very insertion step — trigger
batch, both timers disarmed rather than awaited, the whole buffer
snapshotted. -/
theorem c6_batch_preempts_timers (cfg : CConfig) (s : Coalescer) (id : Nat)
    (hd : s.destroyed = false) (hm : s.mode ≠ Mode.flushing)
    (hb : cfg.writeBatchSize ≤ s.dirty + 1) :
    (step cfg s (.addLog id)).mode = Mode.flushing
  ∧ (step cfg s (.addLog id)).lastTrigger = some Trigger.batch
  ∧ (step cfg s (.addLog id)).flushStarts = s.flushStarts + 1
  ∧ (step cfg s (.addLog id)).debounceArmed = false
  ∧ (step cfg s (.addLog id)).ceilingArmed = false
  ∧ (step cfg s (.addLog id)).pendingFlush = s.buffer ++ [id] := by
  simp [step, hd, hm, startFlush, hb]

/-- Witness for C6: with writeBatchSize = 20, nineteen back-to-back
insertions start no flush, and the twentieth fires a batch flush
immediately. -/
theorem c6_batch_preempts_timers_witness :
    (runC ⟨20⟩ initC ((List.range 19).map CEvent.addLog)).flushStarts = 0
  ∧ (step ⟨20⟩ (runC ⟨20⟩ initC ((List.range 19).map CEvent.addLog))
        (.addLog 19)).mode = Mode.flushing
  ∧ (step ⟨20⟩ (runC ⟨20⟩ initC ((List.range 19).map CEvent.addLog))
        (.addLog 19)).lastTrigger = some Trigger.batch
  ∧ (step ⟨20⟩ (runC ⟨20⟩ initC ((List.range 19).map CEvent.addLog))
        (.addLog 19)).flushStarts = 1 := by
  have h := c6_batch_preempts_timers ⟨20⟩
    (runC ⟨20⟩ initC ((List.range 19).map CEvent.addLog)) 19
    (by decide) (by decide) (by decide)
  have h0 : (runC ⟨20⟩ initC ((List.range 19).map CEvent.addLog)).flushStarts
      = 0 := by decide
  refine ⟨h0, h.1, h.2.1, ?_⟩
  rw [h.2.2.1, h0]

/-- A non-destroy step of a live coalescer keeps it live and changes the
buffer exactly by the ids its addLog events accept. -/
theorem step_preserves (cfg : CConfig) (s : Coalescer) (e : CEvent)
    (hd : s.destroyed = false) (he : e ≠ CEvent.destroy) :
    (step cfg s e).destroyed = false
  ∧ (step cfg s e).buffer = s.buffer ++ addedIds [e] := by
  cases e with
  | addLog id =>
    constructor <;>
      (simp only [step, hd, Bool.false_eq_true, if_false]
       split_ifs <;> simp_all [startFlush, addedIds])
  | debounceFire =>
    constructor <;>
      (simp only [step, hd, Bool.false_eq_true, if_false]
       split_ifs <;> simp_all [startFlush, addedIds])
  | ceilingFire =>
    constructor <;>
      (simp only [step, hd, Bool.false_eq_true, if_false]
       split_ifs <;> simp_all [startFlush, addedIds])
  | flushComplete =>
    constructor <;>
      (simp only [step, hd, Bool.false_eq_true, if_false]
       split_ifs <;> simp_all [addedIds])
  | destroy => exact absurd rfl he

/-- A destroy-free run of a live coalescer keeps it live and accumulates
exactly the accepted entry ids in the buffer. -/
theorem runC_no_destroy (cfg : CConfig) (evs : List CEvent) (s : Coalescer)
    (hd : s.destroyed = false) (h : CEvent.destroy ∉ evs) :
    (runC cfg s evs).destroyed = false
  ∧ (runC cfg s evs).buffer = s.buffer ++ addedIds evs := by
  induction evs generalizing s with
  | nil =>
    refine ⟨hd, ?_⟩
    show s.buffer = s.buffer ++ addedIds []
    simp [addedIds]
  | cons e evs ih =>
    rw [List.mem_cons] at h
    push_neg at h
    obtain ⟨hd', hbuf⟩ := step_preserves cfg s e hd (fun hh => h.1 hh.symm)
    obtain ⟨hd2, hb2⟩ := ih (step cfg s e) hd' h.2
    refine ⟨hd2, ?_⟩
    show (runC cfg (step cfg s e) evs).buffer = s.buffer ++ addedIds (e :: evs)
    rw [hb2, hbuf]
    cases e <;> simp [addedIds]

/-- C5: destroy() cancels both pending timers and performs one final
synchronous flush of the whole buffer regardless of the dirty counter,
so every entry accepted by addLog before the destroy call — including
those inserted within a still-open debounce window — is present in the
persisted file afterwards. -/
theorem c5_destroy_flushes_all (cfg : CConfig) (evs : List CEvent)
    (h : CEvent.destroy ∉ evs) :
    (step cfg (runC cfg initC evs) .destroy).persisted =
      (runC cfg initC evs).buffer
  ∧ (runC cfg initC evs).buffer = addedIds evs
  ∧ (step cfg (runC cfg initC evs) .destroy).debounceArmed = false
  ∧ (step cfg (runC cfg initC evs) .destroy).ceilingArmed = false
  ∧ (step cfg (runC cfg initC evs) .destroy).destroyed = true
  ∧ ∀ id ∈ addedIds evs,
      id ∈ (step cfg (runC cfg initC evs) .destroy).persisted := by
  obtain ⟨hd, hb⟩ := runC_no_destroy cfg evs initC rfl h
  have hb' : (runC cfg initC evs).buffer = addedIds evs := by
    rw [hb]
    rfl
  refine ⟨rfl, hb', rfl, rfl, rfl, ?_⟩
  intro id hid
  show id ∈ (runC cfg initC evs).buffer
  rw [hb']
  exact hid

/-- Witness for C5 at a concrete destroy-free run of two insertions
inside an open debounce window. -/
theorem c5_destroy_flushes_all_witness :
    (step ⟨10⟩ (runC ⟨10⟩ initC [.addLog 1, .addLog 2]) .destroy).persisted =
      (runC ⟨10⟩ initC [.addLog 1, .addLog 2]).buffer
  ∧ (runC ⟨10⟩ initC [.addLog 1, .addLog 2]).buffer = addedIds [.addLog 1, .addLog 2]
  ∧ ∀ id ∈ addedIds [CEvent.addLog 1, CEvent.addLog 2],
      id ∈ (step ⟨10⟩ (runC ⟨10⟩ initC [.addLog 1, .addLog 2]) .destroy).persisted := by
  have h := c5_destroy_flushes_all ⟨10⟩ [.addLog 1, .addLog 2] (by decide)
  exact ⟨h.1, h.2.1, h.2.2.2.2.2⟩

/-! ## Startup load and export theorems -/

/-- C7: startup with refreshOnStartup never aborts: a missing
destination file yields an empty buffer without a warning, an
unparseable file yields an empty buffer with a warning, a parseable file
yields its entries — and in every case startup produces a live, idle
coalescer satisfying the single-flight invariant. -/
theorem c7_startup_never_fatal (parse : String → Option (List Nat))
    (file : Option String) :
    (file = none →
      loadPersisted parse file = { buffer := [], warned := false })
  ∧ (∀ raw, file = some raw → parse raw = none →
      loadPersisted parse file = { buffer := [], warned := true })
  ∧ (∀ raw entries, file = some raw → parse raw = some entries →
      loadPersisted parse file = { buffer := entries, warned := false })
  ∧ CInv (startupC parse true file)
  ∧ (startupC parse true file).destroyed = false
  ∧ (startupC parse true file).mode = Mode.idle := by
  have hc : ∀ b : List Nat, CInv { initC with buffer := b } :=
    fun b => ⟨by simp [initC], by simp [initC], by simp [initC]⟩
  refine ⟨?_, ?_, ?_, ?_, ?_, ?_⟩
  · rintro rfl
    rfl
  · rintro raw rfl hp
    simp [loadPersisted, hp]
  · rintro raw entries rfl hp
    simp [loadPersisted, hp]
  · simpa [startupC] using hc (loadPersisted parse file).buffer
  · rfl
  · rfl

/-- Witness for C7: a missing file and a corrupt file under a parser
that rejects everything. -/
theorem c7_startup_never_fatal_witness :
    loadPersisted (fun _ => none) none = { buffer := [], warned := false }
  ∧ loadPersisted (fun _ => none) (some "corrupt") =
      { buffer := [], warned := true } := by
  have h1 := c7_startup_never_fatal (fun _ => none) none
  have h2 := c7_startup_never_fatal (fun _ => none) (some "corrupt")
  exact ⟨h1.1 rfl, h2.2.1 "corrupt" rfl rfl⟩

/-- C8: exportLogs answers any format other than json and csv with the
explicit UnsupportedFormat error — while both supported formats
succeed, so there is no silent fallback to a default. -/
theorem c8_unsupported_format (format : String) (logs : List ExpEntry)
    (h1 : format ≠ "json") (h2 : format ≠ "csv") :
    exportLogs format logs = .error ExportError.UnsupportedFormat
  ∧ (∃ out, exportLogs "json" logs = .ok out)
  ∧ (∃ out, exportLogs "csv" logs = .ok out) := by
  refine ⟨by simp [exportLogs, h1, h2], ⟨_, rfl⟩, ⟨_, rfl⟩⟩

/-- Witness for C8 at the concrete unsupported format xml. -/
theorem c8_unsupported_format_witness :
    exportLogs "xml" [] = .error ExportError.UnsupportedFormat :=
  (c8_unsupported_format "xml" [] (by decide) (by decide)).1

end ApiSniffer
